import Mathlib

/-!
Verification of the AnimalMiru sensor-recording scripts.

This file gives a shallow embedding, in Lean, of the parts of the
repository that the specification's testable properties talk about:

* `parse_arduino_data` (src/src/arduino_recorder.py, lines 59-71, and the
  identical copy in src/Analyze/single_sensor_recorder.py): the
  labeled-scalar line parser built on the Python regex
  `circuit No\.(\d+)\s*:\s*(\d+)\s*,\s*([\d.]+)\[V\]` applied with
  `re.match`, followed by `int`/`int`/`float` conversions of the three
  captured groups.
* `read_from_arduino` (src/src/arduino_recorder.py, lines 73-103): the
  per-port worker loop with its single `data_receive_errors[idx]` counter.
* `parse_received_data` (src/BeagleBone/receiver.py, lines 61-93, and the
  identical `parse_data` in src/BeagleBone/visualizer.py): the hex-frame
  decoder built on `re.search` with `00,0004,\d+:([0-9A-Fa-f]+)`,
  2-hex-digit byte splitting, and grouping into triples.
* the sampler loop of arduino_recorder.py (lines 150-191) that builds one
  CSV row per 0.1 s tick from the shared `latest_circuit_data` /
  `last_data_time` dictionaries, and the two dictionary writes of the
  reader threads (lines 85-86) for the interleaving analysis.

Strings are modelled as `List Char`; Python `int` of a digit group as a
fold over decimal digits; Python `float` of a `[\d.]+` group by its exact
decimal value in `ℚ` together with an explicit success predicate (`float`
raises `ValueError` exactly when the digits-and-dots group has two or more
dots or no digit at all); a raised Python exception as `Except.error`.

The regexes involved are translated to deterministic scanners.  This is
faithful because in both patterns every quantified class is disjoint from
the character that must follow it (`\d` vs `:`/`,`/whitespace, `[\d.]` vs
`[`, `[0-9A-Fa-f]` vs end-of-pattern), so greedy maximal munch never needs
to backtrack, and `re.match` only anchors the start (trailing text after
the pattern is allowed).
-/

deriving instance DecidableEq for Except

namespace AnimalMiru

/-! ## Character classes (ASCII range of the Python regex classes) -/

/-- Decimal digit character class, Python regex `\d` (ASCII range). -/
def isDigitCh (c : Char) : Bool :=
  decide (48 ≤ c.toNat) && decide (c.toNat ≤ 57)

/-- Whitespace character class, Python regex `\s` (ASCII range). -/
def isSpaceCh (c : Char) : Bool :=
  (c == ' ') || (c == '\t') || (c == '\n') || (c == '\r') || (c == '\x0b') || (c == '\x0c')

/-- Character class `[\d.]` of the voltage group. -/
def isDigitDot (c : Char) : Bool :=
  isDigitCh c || (c == '.')

/-- Hexadecimal digit character class `[0-9A-Fa-f]`. -/
def isHexCh (c : Char) : Bool :=
  decide (48 ≤ c.toNat ∧ c.toNat ≤ 57) || decide (65 ≤ c.toNat ∧ c.toNat ≤ 70)
    || decide (97 ≤ c.toNat ∧ c.toNat ≤ 102)

/-- Numeric value of a decimal digit character. -/
def digitVal (c : Char) : Nat := c.toNat - 48

/-- Numeric value of a hexadecimal digit character (0 on other input;
`int(s, 16)` is only ever applied to captured `[0-9A-Fa-f]` text). -/
def hexVal (c : Char) : Nat :=
  if 48 ≤ c.toNat ∧ c.toNat ≤ 57 then c.toNat - 48
  else if 65 ≤ c.toNat ∧ c.toNat ≤ 70 then c.toNat - 55
  else if 97 ≤ c.toNat ∧ c.toNat ≤ 102 then c.toNat - 87
  else 0

/-- Python `int` on a nonempty string of decimal digits. -/
def natOfDigits (l : List Char) : Nat :=
  l.foldl (fun a c => 10 * a + digitVal c) 0

/-- Matching a literal: `dropLit lit l` returns the remainder of `l` after
the literal prefix `lit`, or `none` when `l` does not start with `lit`. -/
def dropLit : List Char → List Char → Option (List Char)
  | [], s => some s
  | _ :: _, [] => none
  | c :: cs, x :: xs => if x = c then dropLit cs xs else none

/-! ## The labeled-scalar parser (arduino_recorder.parse_arduino_data) -/

/-- The three capture groups of the labeled-scalar regex. -/
structure Groups where
  g1 : List Char
  g2 : List Char
  g3 : List Char
deriving DecidableEq

/-- Matching `(class)+`: the greedy nonempty capture of a character class,
returning the capture and the remainder. -/
def scanNum (p : Char → Bool) (l : List Char) : Option (List Char × List Char) :=
  if (l.takeWhile p).isEmpty then none else some (l.takeWhile p, l.dropWhile p)

/-- The regex `circuit No\.(\d+)\s*:\s*(\d+)\s*,\s*([\d.]+)\[V\]` applied
with `re.match` (anchored at the start, trailing text allowed), written as
the equivalent deterministic scanner. -/
def scan (line : List Char) : Option Groups :=
  match dropLit ("circuit No.".data) line with
  | none => none
  | some r0 =>
  match scanNum isDigitCh r0 with
  | none => none
  | some (g1, r1) =>
  match dropLit [':'] (r1.dropWhile isSpaceCh) with
  | none => none
  | some r3 =>
  match scanNum isDigitCh (r3.dropWhile isSpaceCh) with
  | none => none
  | some (g2, r5) =>
  match dropLit [','] (r5.dropWhile isSpaceCh) with
  | none => none
  | some r7 =>
  match scanNum isDigitDot (r7.dropWhile isSpaceCh) with
  | none => none
  | some (g3, r9) =>
  match dropLit ['[', 'V', ']'] r9 with
  | none => none
  | some _ => some ⟨g1, g2, g3⟩

/-- Python `float` succeeds on a nonempty digits-and-dots string exactly
when the string has at most one dot and at least one digit (otherwise it
raises `ValueError`, e.g. on `1.2.3` or `.`). -/
def floatOk (l : List Char) : Bool :=
  decide (l.countP (fun c => c == '.') ≤ 1) && l.any isDigitCh

/-- Exact decimal value of a digits-and-dots string with at most one dot
(the mathematical value that Python `float` rounds to a double). -/
def decValue (l : List Char) : ℚ :=
  let ip := l.takeWhile (fun c => c != '.')
  match l.dropWhile (fun c => c != '.') with
  | [] => (natOfDigits ip : ℚ)
  | _ :: fp => (natOfDigits ip : ℚ) + (natOfDigits fp : ℚ) / (10 : ℚ) ^ fp.length

/-- `parse_arduino_data` of src/src/arduino_recorder.py (lines 59-71):
match the regex; on no match return `None`; on a match convert the groups
with `int`, `int`, `float`.  The `float` conversion is the only fallible
step and its failure raises (`Except.error`), it does not return `None`. -/
def parse_arduino_data (line : List Char) : Except Unit (Option (Nat × Nat × ℚ)) :=
  match scan line with
  | none => .ok none
  | some g =>
    if floatOk g.g3 then
      .ok (some (natOfDigits g.g1, natOfDigits g.g2, decValue g.g3))
    else
      .error ()

/-! ## Canonical decimal rendering of a natural number (Python `str`) -/

/-- Digit character of a value below ten. -/
def digitCh : Nat → Char
  | 0 => '0' | 1 => '1' | 2 => '2' | 3 => '3' | 4 => '4'
  | 5 => '5' | 6 => '6' | 7 => '7' | 8 => '8' | _ => '9'

/-- Fuel-driven accumulator loop behind `renderNat`. -/
def renderNatAux : Nat → Nat → List Char → List Char
  | 0, _, acc => acc
  | fuel + 1, n, acc =>
    if n < 10 then digitCh n :: acc
    else renderNatAux fuel (n / 10) (digitCh (n % 10) :: acc)

/-- Canonical decimal rendering of a natural number, as Python `str`
writes it: no leading zeros, `0` for zero. -/
def renderNat (n : Nat) : List Char :=
  renderNatAux (n + 1) n []

/-! ## The hex-frame decoder (BeagleBone receiver / visualizer) -/

/-- Byte splitting of receiver.py lines 79-85: take the hex characters two
at a time, decode each pair as one 8-bit value, and silently drop a
trailing lone character. -/
def hexToBytes : List Char → List Nat
  | c1 :: c2 :: rest => (16 * hexVal c1 + hexVal c2) :: hexToBytes rest
  | _ => []

/-- Triple grouping of receiver.py lines 87-91: take the decoded bytes
three at a time and drop a trailing remainder of one or two bytes. -/
def toTriples : List Nat → List (Nat × Nat × Nat)
  | a :: b :: c :: rest => (a, b, c) :: toTriples rest
  | _ => []

/-- One attempt of the regex `00,0004,\d+:([0-9A-Fa-f]+)` at the head of
the list, returning the captured hex group. -/
def matchHdr (l : List Char) : Option (List Char) :=
  match dropLit ("00,0004,".data) l with
  | none => none
  | some r0 =>
  match scanNum isDigitCh r0 with
  | none => none
  | some (_, r1) =>
  match dropLit [':'] r1 with
  | none => none
  | some r2 =>
  match scanNum isHexCh r2 with
  | none => none
  | some (h, _) => some h

/-- `re.search`: try the pattern at every start position, left to right. -/
def search : List Char → Option (List Char)
  | [] => none
  | c :: rest =>
    match matchHdr (c :: rest) with
    | some h => some h
    | none => search rest

/-- `parse_received_data` of src/BeagleBone/receiver.py (lines 61-93) and
the identical `parse_data` of visualizer.py: `re.search` for the header
plus nonempty hex payload; `None` on no match, otherwise the decoded
triples (possibly the empty list). -/
def parse_received_data (line : List Char) : Option (List (Nat × Nat × Nat)) :=
  (search line).map fun h => toTriples (hexToBytes h)

/-! ## The Source Worker loop (read_from_arduino, lines 73-103)

One loop iteration classifies into four outcomes of `ser.readline`:
a parsed line, a nonempty line the parser rejects, an empty read, or a
raised exception.  The function keeps one counter per port,
`data_receive_errors[idx]`, incremented by all three fault kinds, reset to
zero only on a successful parse, printed against threshold 10 after a
parse failure, 20 after an empty read, and compared against 5 to `break`
after an exception. -/

/-- Outcome of one `ser.readline` iteration as seen by the worker loop. -/
inductive Ev where
  | ok
  | parseFail
  | silent
  | ioErr
deriving DecidableEq

/-- Worker-loop state: the shared error counter, whether the loop has
exited via `break`, how many warnings of each kind were printed, and how
many reads were performed. -/
structure WState where
  errors : Nat
  failed : Bool
  parseWarns : Nat
  silentWarns : Nat
  reads : Nat
deriving DecidableEq

/-- Initial worker state (`data_receive_errors[idx] = 0`, line 76). -/
def initW : WState := ⟨0, false, 0, 0, 0⟩

/-- One iteration of the `while True` loop of `read_from_arduino`.  After
the `break` (field `failed`) no further iteration runs. -/
def step (s : WState) (e : Ev) : WState :=
  if s.failed then s else
  match e with
  | .ok =>
    { s with errors := 0, reads := s.reads + 1 }
  | .parseFail =>
    { s with errors := s.errors + 1, reads := s.reads + 1,
             parseWarns := s.parseWarns + (if s.errors + 1 > 10 then 1 else 0) }
  | .silent =>
    { s with errors := s.errors + 1, reads := s.reads + 1,
             silentWarns := s.silentWarns + (if s.errors + 1 > 20 then 1 else 0) }
  | .ioErr =>
    { s with errors := s.errors + 1, reads := s.reads + 1,
             failed := decide (s.errors + 1 > 5) }

/-- The worker fed a whole sequence of read outcomes. -/
def run (tr : List Ev) : WState :=
  tr.foldl step initW

/-- Number of fault events since the last successful parse (the value the
shared counter holds, per the amended C2). -/
def sinceOk (tr : List Ev) : Nat :=
  tr.foldl (fun n e => match e with | .ok => 0 | _ => n + 1) 0

/-! ## The Sampler loop (arduino_recorder.py lines 150-191)

Reader threads publish into `latest_circuit_data` and `last_data_time`;
the main loop once per tick checks staleness (10 s, line 166), then builds
a row holding `latest_circuit_data[c]` or empty cells for each channel 1-12
(lines 173-178), appends it to the CSV and never touches it again.  Times
are in tenths of a second; the recorded row timestamp is the tick instant
truncated to whole seconds (`strftime` with seconds resolution, line 156).
This model treats one publish as one event; the finer two-write
interleaving is modelled separately below for the torn-read analysis. -/

/-- Events seen by the sampler model: a reader publishing channel `c`
(value pair, publish instant) or a sampling tick at instant `now`. -/
inductive SEv where
  | pub (c : Nat) (v : Nat × ℚ) (t : Nat)
  | tick (now : Nat)
deriving DecidableEq

/-- Channels 1-12 (`range(1, 13)`). -/
def chans : List Nat := [1, 2, 3, 4, 5, 6, 7, 8, 9, 10, 11, 12]

/-- Row cells: `latest_circuit_data[c]` when present, the explicit empty
marker (`none`, the `['', '']` cells) otherwise. -/
def buildRow (reg : Nat → Option (Nat × ℚ)) : List (Option (Nat × ℚ)) :=
  chans.map reg

/-- Channels flagged stale at instant `now` (line 166: more than 10 s,
i.e. 100 tenths, since the last publish). -/
def staleList (lastT : Nat → Option Nat) (now : Nat) : List Nat :=
  chans.filter fun c =>
    match lastT c with
    | some t => decide (now - t > 100)
    | none => false

/-- Sampler-side state: the two shared dictionaries, the emitted rows
(recorded second, cells), and how many staleness warnings were printed. -/
structure SampState where
  reg : Nat → Option (Nat × ℚ)
  lastT : Nat → Option Nat
  rows : List (Nat × List (Option (Nat × ℚ)))
  staleWarns : Nat

/-- Initial sampler state: empty dictionaries, no rows. -/
def initS : SampState := ⟨fun _ => none, fun _ => none, [], 0⟩

/-- One event: a publish updates the two dictionaries (lines 85-86); a
tick prints the staleness warning if any channel is stale and appends one
row built from the current registry (lines 161-181). -/
def stepS (s : SampState) (e : SEv) : SampState :=
  match e with
  | .pub c v t =>
    { s with reg := fun c' => if c' = c then some v else s.reg c',
             lastT := fun c' => if c' = c then some t else s.lastT c' }
  | .tick now =>
    { s with rows := s.rows ++ [(now / 10, buildRow s.reg)],
             staleWarns := s.staleWarns + (if (staleList s.lastT now).isEmpty then 0 else 1) }

/-- The sampler model run over a whole event sequence. -/
def runS (tr : List SEv) : SampState :=
  tr.foldl stepS initS

/-- Last value published to channel `c` in the event sequence (`none`
before the first publish): the reference against which rows are checked. -/
def lastPub (tr : List SEv) (c : Nat) : Option (Nat × ℚ) :=
  tr.foldl (fun acc e =>
    match e with
    | .pub c' v _ => if c = c' then some v else acc
    | .tick _ => acc) none

/-- Row contents predicted by the specification: one row per tick, each
cell holding the last value published to its channel before that tick. -/
def rowsSpecAux (pre : List SEv) : List SEv → List (List (Option (Nat × ℚ)))
  | [] => []
  | e :: r =>
    match e with
    | .tick _ => chans.map (lastPub pre) :: rowsSpecAux (pre ++ [e]) r
    | .pub _ _ _ => rowsSpecAux (pre ++ [e]) r

/-- Row contents predicted by the specification, from the empty prefix. -/
def rowsSpec (tr : List SEv) : List (List (Option (Nat × ℚ))) :=
  rowsSpecAux [] tr

/-- Tick test for an event. -/
def isTick : SEv → Bool
  | .tick _ => true
  | .pub _ _ _ => false

/-- The tick instants of an event sequence, in order. -/
def ticksOf (tr : List SEv) : List Nat :=
  tr.filterMap fun e =>
    match e with
    | .tick now => some now
    | .pub _ _ _ => none

/-! ## Per-channel registry cell under interleaving (torn-read analysis)

For one channel, `latest_circuit_data[c]` and `last_data_time[c]` are two
separate dictionary entries written by two separate statements (lines
85-86, value first, then timestamp); each single dictionary assignment and
each single read is atomic.  The sampler tick reads `last_data_time[c]`
during the staleness check (line 166) and `latest_circuit_data[c]` later,
while building the row (line 175), so its two reads happen at two
positions `i ≤ j` of the writer's atomic-operation sequence. -/

/-- The two shared cells for one channel. -/
structure Reg5 where
  val : Option (Nat × ℚ)
  ts : Option Nat
deriving DecidableEq

/-- One atomic dictionary write of the reader thread. -/
inductive WOp where
  | wval (v : Nat × ℚ)
  | wts (t : Nat)

/-- Effect of one atomic write. -/
def applyW (r : Reg5) (o : WOp) : Reg5 :=
  match o with
  | .wval v => { r with val := some v }
  | .wts t => { r with ts := some t }

/-- Cell contents after a sequence of atomic writes, from empty. -/
def reg5 (ops : List WOp) : Reg5 :=
  ops.foldl applyW ⟨none, none⟩

/-- Compilation of a list of publishes into the atomic writes the reader
thread performs: value first, then timestamp (lines 85-86). -/
def pubOps : List ((Nat × ℚ) × Nat) → List WOp
  | [] => []
  | p :: rest => .wval p.1 :: .wts p.2 :: pubOps rest

/-- What one sampler tick observes for the channel when its timestamp read
happens after `i` writer operations and its value read after `j`. -/
def observe (pubs : List ((Nat × ℚ) × Nat)) (i j : Nat) :
    Option (Nat × ℚ) × Option Nat :=
  ((reg5 ((pubOps pubs).take j)).val, (reg5 ((pubOps pubs).take i)).ts)

/-- The matched (value, timestamp) pairs the claim C5 allows a snapshot to
observe: nothing yet, or some fully published pair. -/
def matchedPairs (pubs : List ((Nat × ℚ) × Nat)) :
    List (Option (Nat × ℚ) × Option Nat) :=
  (none, none) :: pubs.map fun p => (some p.1, some p.2)

end AnimalMiru

namespace AnimalMiru

/-! ## Theorems.  Claim theorems are named after their content; each doc
comment names the claim it settles. -/

/-- C1 counterexample: the voltage field `1.2.3` matches `[\d.]+` but
Python `float` raises `ValueError` on it, so `parse_arduino_data` raises
instead of returning the no-match result the claim promises for a line
with a non-numeric field. -/
theorem parse_arduino_raises_on_double_dot :
    parse_arduino_data ("circuit No.1 : 348 , 1.2.3[V]".data) = .error ()
    ∧ parse_arduino_data ("circuit No.1 : 348 , 1.2.3[V]".data) ≠ .ok none := by
  constructor
  · decide
  · decide

/-- C2 counterexample: the counters are not independent.  Five consecutive
I/O errors alone do not terminate the loop, but the same five I/O errors
preceded by one unrelated parse failure do, because `read_from_arduino`
keeps one shared `data_receive_errors[idx]` counter.  Likewise ten
consecutive parse failures alone print no parse warning, but the same ten
preceded by one silent read do. -/
theorem shared_counter_cross_kind_cex :
    (run (Ev.parseFail :: List.replicate 5 Ev.ioErr)).failed = true
    ∧ (run (List.replicate 5 Ev.ioErr)).failed = false
    ∧ (run (Ev.silent :: List.replicate 10 Ev.parseFail)).parseWarns = 1
    ∧ (run (List.replicate 10 Ev.parseFail)).parseWarns = 0 := by
  refine ⟨by decide, by decide, by decide, by decide⟩

/-- C3 counterexample: after the 5th consecutive I/O failure the loop has
not exited (`data_receive_errors[idx] > 5` is strict), so a worker fed 6
consecutive I/O failures performs a 6th read, contradicting the claim that
it fails immediately after the 5th with no further reads. -/
theorem io_hard_threshold_cex :
    (run (List.replicate 5 Ev.ioErr)).failed = false
    ∧ (run (List.replicate 6 Ev.ioErr)).reads = 6 := by
  refine ⟨by decide, by decide⟩

/-- C9: a worker fed exactly 11 consecutive unparseable nonempty lines
prints the parse-failure warning (threshold 10, line 91) exactly once,
never exits the loop, and performs all 11 reads. -/
theorem parse_soft_threshold_once :
    (run (List.replicate 11 Ev.parseFail)).parseWarns = 1
    ∧ (run (List.replicate 11 Ev.parseFail)).failed = false
    ∧ (run (List.replicate 11 Ev.parseFail)).reads = 11 := by
  refine ⟨by decide, by decide, by decide⟩

/-- After the loop has exited via `break`, an iteration changes nothing. -/
lemma step_absorb (s : WState) (e : Ev) (h : s.failed = true) : step s e = s := by
  unfold step
  rw [h]
  simp

/-- After the loop has exited, a whole stream of further outcomes changes
nothing. -/
lemma foldl_step_absorb (ext : List Ev) (s : WState) (h : s.failed = true) :
    List.foldl step s ext = s := by
  induction ext with
  | nil => rfl
  | cons e r ih => rw [List.foldl_cons, step_absorb s e h, ih]

/-- Running a concatenation continues from the intermediate state. -/
lemma run_append (tr ext : List Ev) :
    run (tr ++ ext) = List.foldl step (run tr) ext := by
  unfold run
  rw [List.foldl_append]

/-- The failure flag is monotone along the run. -/
lemma run_failed_of_snoc (tr : List Ev) (e : Ev)
    (h : (run (tr ++ [e])).failed = false) : (run tr).failed = false := by
  by_contra hc
  have h1 : (run tr).failed = true := by
    cases hf : (run tr).failed
    · exact absurd hf hc
    · rfl
  rw [run_append, foldl_step_absorb [e] (run tr) h1] at h
  rw [h] at h1
  exact Bool.false_ne_true h1

/-- Appending one outcome to `sinceOk`. -/
lemma sinceOk_snoc (tr : List Ev) (e : Ev) :
    sinceOk (tr ++ [e]) = match e with | .ok => 0 | _ => sinceOk tr + 1 := by
  unfold sinceOk
  rw [List.foldl_append]
  cases e <;> rfl

/-- C2 amended: the worker keeps one shared fault counter
(`data_receive_errors[idx]`), incremented by every fault kind alike and
reset to zero only on a successful parse; while the loop is still running
the counter equals the number of loop iterations since the last successful
parse, regardless of the kinds of the intervening faults. -/
theorem worker_counter_shared (tr : List Ev)
    (h : (run tr).failed = false) : (run tr).errors = sinceOk tr := by
  induction tr using List.reverseRecOn with
  | nil => rfl
  | append_singleton tr e ih =>
    have h0 : (run tr).failed = false := run_failed_of_snoc tr e h
    have hrun : run (tr ++ [e]) = step (run tr) e := by
      rw [run_append]
      rfl
    rw [hrun, sinceOk_snoc]
    unfold step
    rw [h0]
    cases e
    · rfl
    · simpa using ih h0
    · simpa using ih h0
    · simpa using ih h0

/-- Witness for the amended C2 at a concrete mixed-fault stream. -/
theorem worker_counter_shared_example :
    (run [Ev.parseFail, Ev.silent]).errors = sinceOk [Ev.parseFail, Ev.silent] :=
  worker_counter_shared [Ev.parseFail, Ev.silent] (by decide)

/-- C3 amended: with the strict comparison `data_receive_errors[idx] > 5`,
a worker fed consecutive I/O failures exits immediately after the 6th
failure, having performed exactly 6 reads, and performs no reads
thereafter; through 5 failures it logs, stays in its loop, and retries. -/
theorem io_hard_threshold_exits_after_sixth :
    (run (List.replicate 6 Ev.ioErr)).failed = true
    ∧ (run (List.replicate 6 Ev.ioErr)).reads = 6
    ∧ (∀ k, k ≤ 5 →
        (run (List.replicate k Ev.ioErr)).failed = false
        ∧ (run (List.replicate k Ev.ioErr)).reads = k)
    ∧ (∀ ext, (run (List.replicate 6 Ev.ioErr ++ ext)).reads = 6) := by
  refine ⟨by decide, by decide, ?_, ?_⟩
  · intro k hk
    interval_cases k
    · exact ⟨by decide, by decide⟩
    · exact ⟨by decide, by decide⟩
    · exact ⟨by decide, by decide⟩
    · exact ⟨by decide, by decide⟩
    · exact ⟨by decide, by decide⟩
    · exact ⟨by decide, by decide⟩
  · intro ext
    rw [run_append, foldl_step_absorb ext _ (by decide)]
    decide

/-- Witness for the amended C3: 5 failures leave the loop running with 5
reads done; events after the exit cause no further reads. -/
theorem io_hard_threshold_example :
    ((run (List.replicate 5 Ev.ioErr)).failed = false
      ∧ (run (List.replicate 5 Ev.ioErr)).reads = 5)
    ∧ (run (List.replicate 6 Ev.ioErr ++ [Ev.ok])).reads = 6 :=
  ⟨io_hard_threshold_exits_after_sixth.2.2.1 5 (by decide),
   io_hard_threshold_exits_after_sixth.2.2.2 [Ev.ok]⟩

/-- C4 counterexample: a header followed by an empty hex payload does not
yield zero updates; the pattern `([0-9A-Fa-f]+)` itself requires at least
one hex digit, so the whole frame is a no-match (`None`), not `[]`. -/
theorem empty_hex_payload_cex :
    parse_received_data ("00,0004,01:".data) = none
    ∧ parse_received_data ("00,0004,01:".data) ≠ some [] := by
  refine ⟨by decide, by decide⟩

/-- C5 counterexample: with the timestamp read (staleness check) placed
after the first publish completed and the value read placed between the
two writes of the second publish, the snapshot observes the second
publish's value paired with the first publish's timestamp, which is none
of the matched (value, timestamp) pairs the claim allows. -/
theorem torn_timestamp_cex :
    (2 ≤ 3)
    ∧ observe [((5, 1), 100), ((7, 2), 200)] 2 3 = (some (7, 2), some 100)
    ∧ observe [((5, 1), 100), ((7, 2), 200)] 2 3
        ∉ matchedPairs [((5, 1), 100), ((7, 2), 200)] := by
  refine ⟨by decide, by decide, by decide⟩

/-- Hexadecimal digit values are below 16. -/
lemma hexVal_lt (c : Char) : hexVal c < 16 := by
  unfold hexVal
  split
  · omega
  · split
    · omega
    · split
      · omega
      · omega

/-- The byte-splitting loop emits one byte for every full pair of hex
characters and drops a trailing lone character. -/
lemma hexToBytes_length : ∀ s : List Char, (hexToBytes s).length = s.length / 2
  | [] => rfl
  | [_] => by
    show (0 : Nat) = 1 / 2
    decide
  | c1 :: c2 :: rest => by
    simp [hexToBytes, hexToBytes_length rest]
    omega

/-- The grouping loop emits one triple for every three bytes and drops a
remainder of one or two. -/
lemma toTriples_length : ∀ l : List Nat, (toTriples l).length = l.length / 3
  | [] => rfl
  | [_] => by
    show (0 : Nat) = 1 / 3
    decide
  | [_, _] => by
    show (0 : Nat) = 2 / 3
    decide
  | a :: b :: c :: rest => by
    simp [toTriples, toTriples_length rest]
    omega

/-- Every decoded byte is an 8-bit value. -/
lemma hexToBytes_le : ∀ (s : List Char), ∀ b ∈ hexToBytes s, b ≤ 255
  | [], b, h => by simp [hexToBytes] at h
  | [_], b, h => by simp [hexToBytes] at h
  | c1 :: c2 :: rest, b, h => by
    simp only [hexToBytes, List.mem_cons] at h
    rcases h with h | h
    · have h1 := hexVal_lt c1
      have h2 := hexVal_lt c2
      omega
    · exact hexToBytes_le rest b h

/-- C10: on a hex payload of length n the byte-splitting step of
`parse_received_data` produces exactly n / 2 bytes (a trailing lone hex
digit is silently discarded), every decoded byte lies in [0, 255], and the
triple-grouping step emits exactly (n / 2) / 3 triples. -/
theorem hex_split_lengths (s : List Char) :
    (hexToBytes s).length = s.length / 2
    ∧ (toTriples (hexToBytes s)).length = s.length / 2 / 3
    ∧ (hexToBytes s).all (fun b => decide (b ≤ 255)) = true := by
  refine ⟨hexToBytes_length s, ?_, ?_⟩
  · rw [toTriples_length, hexToBytes_length]
  · rw [List.all_eq_true]
    intro b hb
    simpa using hexToBytes_le s b hb

/-- Digit characters have the value they render. -/
lemma digitCh_val (d : Nat) (h : d < 10) : digitVal (digitCh d) = d := by
  interval_cases d <;> rfl

/-- Digit characters are in the `\d` class. -/
lemma digitCh_digit (d : Nat) (h : d < 10) : isDigitCh (digitCh d) = true := by
  interval_cases d <;> rfl

/-- The rendering accumulator only prepends to its accumulator. -/
lemma renderNatAux_append (fuel : Nat) :
    ∀ (n : Nat) (acc : List Char),
      renderNatAux fuel n acc = renderNatAux fuel n [] ++ acc := by
  induction fuel with
  | zero => intro n acc; rfl
  | succ fuel ih =>
    intro n acc
    by_cases h : n < 10
    · simp [renderNatAux, h]
    · simp only [renderNatAux, if_neg h]
      rw [ih (n / 10) (digitCh (n % 10) :: acc), ih (n / 10) [digitCh (n % 10)]]
      simp

/-- The rendering does not depend on the fuel once the fuel is enough. -/
lemma renderNatAux_fuel (f1 : Nat) :
    ∀ (f2 n : Nat) (acc : List Char), n < f1 → n < f2 →
      renderNatAux f1 n acc = renderNatAux f2 n acc := by
  induction f1 with
  | zero => intro f2 n acc h1 _; omega
  | succ f1 ih =>
    intro f2 n acc h1 h2
    cases f2 with
    | zero => omega
    | succ f2 =>
      by_cases h : n < 10
      · simp [renderNatAux, h]
      · simp only [renderNatAux, if_neg h]
        have hd : n / 10 < n := Nat.div_lt_self (by omega) (by omega)
        exact ih f2 (n / 10) _ (by omega) (by omega)

/-- Unfolding `renderNat` for a number of two or more digits. -/
lemma renderNat_step (n : Nat) (h : 10 ≤ n) :
    renderNat n = renderNat (n / 10) ++ [digitCh (n % 10)] := by
  unfold renderNat
  simp only [renderNatAux, if_neg (by omega : ¬ n < 10)]
  have hd : n / 10 < n := Nat.div_lt_self (by omega) (by omega)
  rw [renderNatAux_fuel n (n / 10 + 1) (n / 10) _ (by omega) (by omega)]
  exact renderNatAux_append _ _ _

/-- Unfolding `renderNat` for a single digit. -/
lemma renderNat_small (n : Nat) (h : n < 10) : renderNat n = [digitCh n] := by
  unfold renderNat
  simp [renderNatAux, h]

/-- Every character of a rendered natural number is a decimal digit. -/
lemma renderNat_digits (n : Nat) : ∀ c ∈ renderNat n, isDigitCh c = true := by
  induction n using Nat.strong_induction_on with
  | _ n ih =>
    by_cases h : n < 10
    · rw [renderNat_small n h]
      intro c hc
      rw [List.mem_singleton] at hc
      rw [hc]
      exact digitCh_digit n h
    · rw [renderNat_step n (by omega)]
      intro c hc
      rcases List.mem_append.mp hc with hc | hc
      · exact ih (n / 10) (Nat.div_lt_self (by omega) (by omega)) c hc
      · rw [List.mem_singleton] at hc
        rw [hc]
        exact digitCh_digit (n % 10) (Nat.mod_lt n (by omega))

/-- A rendered natural number is never the empty string. -/
lemma renderNat_ne_nil (n : Nat) : renderNat n ≠ [] := by
  by_cases h : n < 10
  · rw [renderNat_small n h]
    simp
  · rw [renderNat_step n (by omega)]
    simp

/-- Folding one more digit onto `natOfDigits`. -/
lemma natOfDigits_snoc (xs : List Char) (c : Char) :
    natOfDigits (xs ++ [c]) = 10 * natOfDigits xs + digitVal c := by
  unfold natOfDigits
  rw [List.foldl_append]
  rfl

/-- Python `int` undoes the canonical rendering. -/
lemma natOfDigits_renderNat (n : Nat) : natOfDigits (renderNat n) = n := by
  induction n using Nat.strong_induction_on with
  | _ n ih =>
    by_cases h : n < 10
    · rw [renderNat_small n h]
      show 10 * 0 + digitVal (digitCh n) = n
      rw [digitCh_val n h]
      omega
    · rw [renderNat_step n (by omega), natOfDigits_snoc,
        ih (n / 10) (Nat.div_lt_self (by omega) (by omega)),
        digitCh_val (n % 10) (Nat.mod_lt n (by omega))]
      omega

/-- Literal matching succeeds on the literal followed by anything. -/
lemma dropLit_self_append : ∀ lit x : List Char, dropLit lit (lit ++ x) = some x := by
  intro lit
  induction lit with
  | nil => intro x; rfl
  | cons c cs ih => intro x; simp [dropLit, ih]

/-- Literal matching only succeeds on the literal followed by anything. -/
lemma dropLit_eq_append : ∀ lit l x : List Char, dropLit lit l = some x → l = lit ++ x := by
  intro lit
  induction lit with
  | nil =>
    intro l x h
    injection h with h
  | cons c cs ih =>
    intro l x h
    cases l with
    | nil => exact absurd h (by simp [dropLit])
    | cons y ys =>
      unfold dropLit at h
      by_cases hy : y = c
      · rw [if_pos hy] at h
        rw [hy, List.cons_append]
        rw [ih ys x h]
      · rw [if_neg hy] at h
        exact absurd h (by simp)

/-- Greedy class matching stops exactly at the first failing character. -/
lemma takeWhile_append_of (p : Char → Bool) :
    ∀ l r : List Char, (∀ c ∈ l, p c = true) → (∀ c, r.head? = some c → p c = false) →
      (l ++ r).takeWhile p = l := by
  intro l
  induction l with
  | nil =>
    intro r _ hr
    cases r with
    | nil => rfl
    | cons c r' => simp [List.takeWhile_cons, hr c rfl]
  | cons c l' ih =>
    intro r hl hr
    have hc := hl c (List.mem_cons_self c l')
    simp only [List.cons_append, List.takeWhile_cons, hc]
    rw [ih r (fun x hx => hl x (List.mem_cons_of_mem c hx)) hr]
    simp

/-- Greedy class matching leaves exactly the rest after the first failing
character. -/
lemma dropWhile_append_of (p : Char → Bool) :
    ∀ l r : List Char, (∀ c ∈ l, p c = true) → (∀ c, r.head? = some c → p c = false) →
      (l ++ r).dropWhile p = r := by
  intro l
  induction l with
  | nil =>
    intro r _ hr
    cases r with
    | nil => rfl
    | cons c r' => simp [List.dropWhile_cons, hr c rfl]
  | cons c l' ih =>
    intro r hl hr
    have hc := hl c (List.mem_cons_self c l')
    simp only [List.cons_append, List.dropWhile_cons, hc]
    exact ih r (fun x hx => hl x (List.mem_cons_of_mem c hx)) hr

/-- Whitespace characters are not decimal digits. -/
lemma space_not_digit (c : Char) (h : isSpaceCh c = true) : isDigitCh c = false := by
  simp only [isSpaceCh, Bool.or_eq_true, beq_iff_eq] at h
  rcases h with ((((h | h) | h) | h) | h) | h <;> rw [h] <;> rfl

/-- Decimal digits are not whitespace. -/
lemma digit_not_space (c : Char) (h : isDigitCh c = true) : isSpaceCh c = false := by
  cases hs : isSpaceCh c
  · rfl
  · rw [space_not_digit c hs] at h
    exact Bool.noConfusion h

/-- Digits-and-dots characters are not whitespace. -/
lemma digitDot_not_space (c : Char) (h : isDigitDot c = true) : isSpaceCh c = false := by
  simp only [isDigitDot, Bool.or_eq_true, beq_iff_eq] at h
  rcases h with h | h
  · exact digit_not_space c h
  · rw [h]
    rfl

/-- Head condition for a list starting with an explicit character. -/
lemma headFails_cons (p : Char → Bool) (c : Char) (r : List Char) (h : p c = false) :
    ∀ x, ((c :: r).head? = some x) → p x = false := by
  intro x hx
  rw [List.head?_cons] at hx
  injection hx with hx
  rw [← hx]
  exact h

/-- Head condition for whitespace followed by an explicit character. -/
lemma headFails_space_then (p : Char → Bool) (w y : List Char) (c0 : Char)
    (hw : ∀ c ∈ w, isSpaceCh c = true)
    (hsp : ∀ c, isSpaceCh c = true → p c = false)
    (hc0 : p c0 = false) :
    ∀ x, ((w ++ (c0 :: y)).head? = some x) → p x = false := by
  cases w with
  | nil => exact headFails_cons p c0 y hc0
  | cons a w' =>
    exact headFails_cons p a (w' ++ (c0 :: y))
      (hsp a (hw a (List.mem_cons_self a w')))

/-- Head condition for a nonempty block of one class against another. -/
lemma headFails_of_head_all (q p : Char → Bool) (l y : List Char)
    (hl : ∀ c ∈ l, q c = true) (hne : l ≠ [])
    (hqp : ∀ c, q c = true → p c = false) :
    ∀ x, ((l ++ y).head? = some x) → p x = false := by
  cases l with
  | nil => exact absurd rfl hne
  | cons a l' =>
    exact headFails_cons p a (l' ++ y) (hqp a (hl a (List.mem_cons_self a l')))

/-- Evaluating a greedy capture when the split of the input is known. -/
lemma scanNum_of (p : Char → Bool) (l g r : List Char)
    (hg : l.takeWhile p = g) (hr : l.dropWhile p = r) (hne : g ≠ []) :
    scanNum p l = some (g, r) := by
  unfold scanNum
  rw [hg, hr, List.isEmpty_eq_false.mpr hne]
  simp

/-- A successful greedy capture is nonempty and within its class. -/
lemma scanNum_some (p : Char → Bool) (l g r : List Char)
    (h : scanNum p l = some (g, r)) :
    g ≠ [] ∧ ∀ c ∈ g, p c = true := by
  unfold scanNum at h
  by_cases he : (l.takeWhile p).isEmpty
  · rw [if_pos he] at h
    exact Option.noConfusion h
  · rw [if_neg he] at h
    injection h with h
    rw [Prod.mk.injEq] at h
    obtain ⟨h1, h2⟩ := h
    subst h1
    refine ⟨?_, fun c hc => List.mem_takeWhile_imp hc⟩
    rw [← List.isEmpty_eq_false]
    cases hh : (l.takeWhile p).isEmpty
    · rfl
    · exact absurd hh he

/-- A structured well-formed line is matched by `scan` with exactly the
three numeric substrings as its capture groups. -/
lemma scan_structured (a b fs w1 w2 w3 w4 rest : List Char)
    (ha : a ≠ []) (had : ∀ c ∈ a, isDigitCh c = true)
    (hb : b ≠ []) (hbd : ∀ c ∈ b, isDigitCh c = true)
    (hf : fs ≠ []) (hfd : ∀ c ∈ fs, isDigitDot c = true)
    (hw1 : ∀ c ∈ w1, isSpaceCh c = true) (hw2 : ∀ c ∈ w2, isSpaceCh c = true)
    (hw3 : ∀ c ∈ w3, isSpaceCh c = true) (hw4 : ∀ c ∈ w4, isSpaceCh c = true) :
    scan ("circuit No.".data ++
        (a ++ (w1 ++ ([':'] ++ (w2 ++ (b ++ (w3 ++ ([','] ++
          (w4 ++ (fs ++ (['[', 'V', ']'] ++ rest)))))))))))
      = some ⟨a, b, fs⟩ := by
  have e1 := dropLit_self_append ("circuit No.".data)
    (a ++ (w1 ++ ([':'] ++ (w2 ++ (b ++ (w3 ++ ([','] ++
      (w4 ++ (fs ++ (['[', 'V', ']'] ++ rest))))))))))
  have hX1 : ∀ x, ((w1 ++ ([':'] ++ (w2 ++ (b ++ (w3 ++ ([','] ++
      (w4 ++ (fs ++ (['[', 'V', ']'] ++ rest))))))))).head? = some x) → isDigitCh x = false :=
    headFails_space_then isDigitCh w1 _ ':' hw1 space_not_digit rfl
  have e2 := scanNum_of isDigitCh _ a _
    (takeWhile_append_of isDigitCh a _ had hX1)
    (dropWhile_append_of isDigitCh a _ had hX1) ha
  have e4 := dropWhile_append_of isSpaceCh w1
    ([':'] ++ (w2 ++ (b ++ (w3 ++ ([','] ++ (w4 ++ (fs ++ (['[', 'V', ']'] ++ rest))))))))
    hw1 (headFails_cons isSpaceCh ':' _ rfl)
  have e5 := dropLit_self_append [':']
    (w2 ++ (b ++ (w3 ++ ([','] ++ (w4 ++ (fs ++ (['[', 'V', ']'] ++ rest)))))))
  have e6 := dropWhile_append_of isSpaceCh w2
    (b ++ (w3 ++ ([','] ++ (w4 ++ (fs ++ (['[', 'V', ']'] ++ rest))))))
    hw2 (headFails_of_head_all isDigitCh isSpaceCh b _ hbd hb digit_not_space)
  have hX2 : ∀ x, ((w3 ++ ([','] ++ (w4 ++ (fs ++ (['[', 'V', ']'] ++ rest))))).head? = some x) →
      isDigitCh x = false :=
    headFails_space_then isDigitCh w3 _ ',' hw3 space_not_digit rfl
  have e7 := scanNum_of isDigitCh _ b _
    (takeWhile_append_of isDigitCh b _ hbd hX2)
    (dropWhile_append_of isDigitCh b _ hbd hX2) hb
  have e9 := dropWhile_append_of isSpaceCh w3
    ([','] ++ (w4 ++ (fs ++ (['[', 'V', ']'] ++ rest))))
    hw3 (headFails_cons isSpaceCh ',' _ rfl)
  have e10 := dropLit_self_append [','] (w4 ++ (fs ++ (['[', 'V', ']'] ++ rest)))
  have e11 := dropWhile_append_of isSpaceCh w4 (fs ++ (['[', 'V', ']'] ++ rest))
    hw4 (headFails_of_head_all isDigitDot isSpaceCh fs _ hfd hf digitDot_not_space)
  have hX3 : ∀ x, ((['[', 'V', ']'] ++ rest).head? = some x) → isDigitDot x = false :=
    headFails_cons isDigitDot '[' _ rfl
  have e12 := scanNum_of isDigitDot _ fs _
    (takeWhile_append_of isDigitDot fs _ hfd hX3)
    (dropWhile_append_of isDigitDot fs _ hfd hX3) hf
  have e14 := dropLit_self_append ['[', 'V', ']'] rest
  simp only [scan, e1, e2, e4, e5, e6, e7, e9, e10, e11, e12, e14]

/-- Shape of a successful match: each group is nonempty and drawn from its
character class. -/
lemma scan_shape (l : List Char) (g : Groups) (h : scan l = some g) :
    (g.g1 ≠ [] ∧ (∀ c ∈ g.g1, isDigitCh c = true))
    ∧ (g.g2 ≠ [] ∧ (∀ c ∈ g.g2, isDigitCh c = true))
    ∧ (g.g3 ≠ [] ∧ (∀ c ∈ g.g3, isDigitDot c = true)) := by
  unfold scan at h
  cases h0 : dropLit ("circuit No.".data) l with
  | none =>
    simp only [h0] at h
    exact Option.noConfusion h
  | some r0 =>
  simp only [h0] at h
  cases h1 : scanNum isDigitCh r0 with
  | none =>
    simp only [h1] at h
    exact Option.noConfusion h
  | some gr1 =>
  obtain ⟨g1, r1⟩ := gr1
  simp only [h1] at h
  cases h2 : dropLit [':'] (r1.dropWhile isSpaceCh) with
  | none =>
    simp only [h2] at h
    exact Option.noConfusion h
  | some r3 =>
  simp only [h2] at h
  cases h3 : scanNum isDigitCh (r3.dropWhile isSpaceCh) with
  | none =>
    simp only [h3] at h
    exact Option.noConfusion h
  | some gr2 =>
  obtain ⟨g2, r5⟩ := gr2
  simp only [h3] at h
  cases h4 : dropLit [','] (r5.dropWhile isSpaceCh) with
  | none =>
    simp only [h4] at h
    exact Option.noConfusion h
  | some r7 =>
  simp only [h4] at h
  cases h5 : scanNum isDigitDot (r7.dropWhile isSpaceCh) with
  | none =>
    simp only [h5] at h
    exact Option.noConfusion h
  | some gr3 =>
  obtain ⟨g3, r9⟩ := gr3
  simp only [h5] at h
  cases h6 : dropLit ['[', 'V', ']'] r9 with
  | none =>
    simp only [h6] at h
    exact Option.noConfusion h
  | some rX =>
  simp only [h6] at h
  injection h with h
  subst h
  exact ⟨scanNum_some isDigitCh r0 g1 r1 h1,
    scanNum_some isDigitCh (r3.dropWhile isSpaceCh) g2 r5 h3,
    scanNum_some isDigitDot (r7.dropWhile isSpaceCh) g3 r9 h5⟩

/-- C8 counterexample: the line with integer field text `007` is in the
grammar (the regex accepts any `\d+`), parses to the integer 7, and
re-rendering 7 yields `7`, not the original text `007`; the numeric
portion is not byte-for-byte reversible. -/
theorem numeric_text_not_reversible_cex :
    parse_arduino_data ("circuit No.1 : 007 , 1.5[V]".data)
      = .ok (some (1, 7, decValue ("1.5".data)))
    ∧ renderNat 7 ≠ "007".data := by
  refine ⟨rfl, by decide⟩

/-- C8 amended: for every well-formed line whose integer fields are
canonically rendered (no leading zeros) and whose voltage text is a valid
float literal, the parser returns exactly one update carrying exactly the
encoded integer values and the exact decimal value of the voltage text,
and the match captures precisely the three numeric substrings - so
re-rendering the parsed fields reproduces the numeric text whenever each
field was canonically written (the counterexample `007` shows leading
zeros break reversibility, and a non-shortest voltage text such as `1.10`
likewise cannot be reproduced from its value). -/
theorem parse_roundtrip_canonical (n v : Nat) (fs w1 w2 w3 w4 rest : List Char)
    (hfd : ∀ c ∈ fs, isDigitDot c = true)
    (hdot : fs.countP (fun c => c == '.') ≤ 1)
    (hdig : fs.any isDigitCh = true)
    (hw1 : ∀ c ∈ w1, isSpaceCh c = true) (hw2 : ∀ c ∈ w2, isSpaceCh c = true)
    (hw3 : ∀ c ∈ w3, isSpaceCh c = true) (hw4 : ∀ c ∈ w4, isSpaceCh c = true) :
    scan ("circuit No.".data ++
        (renderNat n ++ (w1 ++ ([':'] ++ (w2 ++ (renderNat v ++ (w3 ++ ([','] ++
          (w4 ++ (fs ++ (['[', 'V', ']'] ++ rest)))))))))))
      = some ⟨renderNat n, renderNat v, fs⟩
    ∧ parse_arduino_data ("circuit No.".data ++
        (renderNat n ++ (w1 ++ ([':'] ++ (w2 ++ (renderNat v ++ (w3 ++ ([','] ++
          (w4 ++ (fs ++ (['[', 'V', ']'] ++ rest)))))))))))
      = .ok (some (n, v, decValue fs)) := by
  have hf : fs ≠ [] := by
    intro hfs
    rw [hfs] at hdig
    exact Bool.noConfusion hdig
  have hs := scan_structured (renderNat n) (renderNat v) fs w1 w2 w3 w4 rest
    (renderNat_ne_nil n) (renderNat_digits n)
    (renderNat_ne_nil v) (renderNat_digits v)
    hf hfd hw1 hw2 hw3 hw4
  have hfloat : floatOk fs = true := by
    simp [floatOk, hdig, hdot]
  refine ⟨hs, ?_⟩
  unfold parse_arduino_data
  rw [hs]
  simp [hfloat, natOfDigits_renderNat]

/-- Witness for the amended C8 at the spec's own reference line. -/
theorem parse_roundtrip_example :
    parse_arduino_data ("circuit No.1 :  348 , 1.7399805[V]".data)
      = .ok (some (1, 348, decValue ("1.7399805".data))) := by
  have h := (parse_roundtrip_canonical 1 348 ("1.7399805".data)
    [' '] [' ', ' '] [' '] [' '] []
    (by decide) (by decide) (by decide) (by decide) (by decide) (by decide) (by decide)).2
  have e : "circuit No.1 :  348 , 1.7399805[V]".data
      = "circuit No.".data ++
          (renderNat 1 ++ ([' '] ++ ([':'] ++ ([' ', ' '] ++ (renderNat 348 ++ ([' '] ++ ([','] ++
            ([' '] ++ ("1.7399805".data ++ (['[', 'V', ']'] ++ ([] : List Char))))))))))) := by
    decide
  rw [e]
  exact h

/-- C1 amended: the parser is total and exception-free except in exactly
one family of cases: when the line matches the frame pattern and the
captured voltage text, though drawn from `[\d.]+`, is not a valid float
literal (two or more dots, or no digit), Python `float` raises
`ValueError`.  When the pattern fails to match - malformed punctuation,
missing units, non-digit text at the integer fields - the result is the
explicit no-match `None`, and a successful parse always carries all three
fields of the single match at once (no partial update). -/
theorem parse_arduino_trichotomy (line : List Char) :
    (scan line = none → parse_arduino_data line = .ok none)
    ∧ ∀ g, scan line = some g →
        ((g.g1 ≠ [] ∧ (∀ c ∈ g.g1, isDigitCh c = true))
          ∧ (g.g2 ≠ [] ∧ (∀ c ∈ g.g2, isDigitCh c = true))
          ∧ (g.g3 ≠ [] ∧ (∀ c ∈ g.g3, isDigitDot c = true)))
        ∧ (floatOk g.g3 = true →
            parse_arduino_data line
              = .ok (some (natOfDigits g.g1, natOfDigits g.g2, decValue g.g3)))
        ∧ (floatOk g.g3 = false → parse_arduino_data line = .error ()) := by
  constructor
  · intro h
    simp [parse_arduino_data, h]
  · intro g hg
    refine ⟨scan_shape line g hg, ?_, ?_⟩
    · intro hfl
      simp [parse_arduino_data, hg, hfl]
    · intro hfl
      simp [parse_arduino_data, hg, hfl]

/-- Witness for the amended C1 on a concrete well-formed line. -/
theorem parse_arduino_trichotomy_example :
    parse_arduino_data ("circuit No.2 : 10 , 0.5[V]".data)
      = .ok (some (natOfDigits ['2'], natOfDigits ['1', '0'], decValue ['0', '.', '5'])) :=
  (((parse_arduino_trichotomy ("circuit No.2 : 10 , 0.5[V]".data)).2
    ⟨['2'], ['1', '0'], ['0', '.', '5']⟩ (by decide)).2).1 (by decide)

/-- A structured header line is matched by `matchHdr` at its head with
exactly the hex payload as the captured group. -/
lemma matchHdr_structured (d hx rest : List Char)
    (hd : d ≠ []) (hdd : ∀ c ∈ d, isDigitCh c = true)
    (hh : hx ≠ []) (hhx : ∀ c ∈ hx, isHexCh c = true)
    (hrest : ∀ c, rest.head? = some c → isHexCh c = false) :
    matchHdr ("00,0004,".data ++ (d ++ ([':'] ++ (hx ++ rest)))) = some hx := by
  have e1 := dropLit_self_append ("00,0004,".data) (d ++ ([':'] ++ (hx ++ rest)))
  have hX : ∀ x, (([':'] ++ (hx ++ rest)).head? = some x) → isDigitCh x = false :=
    headFails_cons isDigitCh ':' (hx ++ rest) rfl
  have e2 := scanNum_of isDigitCh _ d ([':'] ++ (hx ++ rest))
    (takeWhile_append_of isDigitCh d _ hdd hX)
    (dropWhile_append_of isDigitCh d _ hdd hX) hd
  have e3 := dropLit_self_append [':'] (hx ++ rest)
  have e4 := scanNum_of isHexCh _ hx rest
    (takeWhile_append_of isHexCh hx rest hhx hrest)
    (dropWhile_append_of isHexCh hx rest hhx hrest) hh
  simp only [matchHdr, e1, e2, e3, e4]

/-- A match somewhere in the line makes the search succeed when the match
is at the head. -/
lemma search_of_matchHdr (l hx : List Char) (hm : matchHdr l = some hx) :
    search l = some hx := by
  cases l with
  | nil =>
    rw [show matchHdr ([] : List Char) = none from rfl] at hm
    exact Option.noConfusion hm
  | cons c r => simp [search, hm]

/-- A failed attempt at the head moves the search one position right. -/
lemma search_cons_none (c : Char) (r : List Char) (hm : matchHdr (c :: r) = none) :
    search (c :: r) = search r := by
  simp [search, hm]

/-- A successful header match means the line starts with the literal. -/
lemma matchHdr_some_decomp (l hx : List Char) (hm : matchHdr l = some hx) :
    ∃ r, l = "00,0004,".data ++ r := by
  unfold matchHdr at hm
  cases h0 : dropLit ("00,0004,".data) l with
  | none =>
    simp only [h0] at hm
    exact Option.noConfusion hm
  | some r0 =>
    exact ⟨r0, dropLit_eq_append _ l r0 h0⟩

/-- The header cannot match a line that does not start with the literal. -/
lemma matchHdr_none_of (l : List Char)
    (hno : ∀ r, l ≠ "00,0004,".data ++ r) : matchHdr l = none := by
  cases hm : matchHdr l with
  | none => rfl
  | some hx =>
    obtain ⟨r, hr⟩ := matchHdr_some_decomp l hx hm
    exact absurd hr (hno r)

/-- A string of digits and colons never starts with the header literal
(the literal has a comma in it). -/
lemma ne_append_of_mem_classes (s : List Char)
    (hall : ∀ c ∈ s, isDigitCh c = true ∨ c = ':') :
    ∀ r, s ≠ "00,0004,".data ++ r := by
  intro r heq
  have hmem : ',' ∈ s := by
    rw [heq]
    exact List.mem_append_left r (by decide)
  rcases hall ',' hmem with h | h
  · exact absurd h (by decide)
  · exact absurd h (by decide)

/-- A line whose character at a fixed position differs from the header
literal cannot start with the literal. -/
lemma ne_append_of_get2 (pre X : List Char) (k : Nat)
    (hk : k < pre.length) (hk8 : k < ("00,0004,".data).length)
    (hne : pre[k]? ≠ ("00,0004,".data)[k]?) :
    ∀ r, (pre ++ X) ≠ "00,0004,".data ++ r := by
  intro r heq
  apply hne
  have h1 : (pre ++ X)[k]? = pre[k]? := List.getElem?_append_left hk
  have h2 : ("00,0004,".data ++ r)[k]? = ("00,0004,".data)[k]? :=
    List.getElem?_append_left hk8
  rw [← h1, heq, h2]

/-- The search fails on a trailing digits-plus-colon remainder. -/
lemma search_digits_colon : ∀ d : List Char, (∀ c ∈ d, isDigitCh c = true) →
    search (d ++ [':']) = none := by
  intro d
  induction d with
  | nil =>
    intro _
    have hcl : ∀ c ∈ (':' :: ([] : List Char)), isDigitCh c = true ∨ c = ':' := by
      intro c hc
      rw [List.mem_singleton] at hc
      exact Or.inr hc
    have hm := matchHdr_none_of _ (ne_append_of_mem_classes _ hcl)
    calc search (([] : List Char) ++ [':'])
        = search ([] : List Char) := search_cons_none ':' [] hm
      _ = none := rfl
  | cons a d' ih =>
    intro hall
    have hcl : ∀ c ∈ (a :: (d' ++ [':'])), isDigitCh c = true ∨ c = ':' := by
      intro c hc
      rcases List.mem_cons.mp hc with hc | hc
      · refine Or.inl (hall c ?_)
        rw [hc]
        exact List.mem_cons_self a d'
      · rcases List.mem_append.mp hc with hc2 | hc2
        · exact Or.inl (hall c (List.mem_cons_of_mem a hc2))
        · rw [List.mem_singleton] at hc2
          exact Or.inr hc2
    have hm := matchHdr_none_of _ (ne_append_of_mem_classes _ hcl)
    calc search ((a :: d') ++ [':'])
        = search (d' ++ [':']) := search_cons_none a _ hm
      _ = none := ih fun c hc => hall c (List.mem_cons_of_mem a hc)

/-- C4 amended: a line carrying the header and a nonempty hex payload
decodes to exactly the triples of the byte-split payload (any trailing
remainder of one or two bytes dropped, never padded); a header with an
EMPTY hex payload is not matched at all - the pattern itself demands at
least one hex digit - so the whole frame is the no-match result `None`
rather than zero updates; and whenever the header pattern matches nowhere
in the line the result is `None`. -/
theorem hex_frame_decode_characterization :
    (∀ d hx rest : List Char, d ≠ [] → (∀ c ∈ d, isDigitCh c = true) →
      hx ≠ [] → (∀ c ∈ hx, isHexCh c = true) →
      (∀ c, rest.head? = some c → isHexCh c = false) →
      parse_received_data ("00,0004,".data ++ (d ++ ([':'] ++ (hx ++ rest))))
        = some (toTriples (hexToBytes hx)))
    ∧ (∀ d : List Char, d ≠ [] → (∀ c ∈ d, isDigitCh c = true) →
      parse_received_data ("00,0004,".data ++ (d ++ [':'])) = none)
    ∧ (∀ line : List Char, search line = none → parse_received_data line = none) := by
  refine ⟨?_, ?_, ?_⟩
  · intro d hx rest hd hdd hh hhx hrest
    have hm := matchHdr_structured d hx rest hd hdd hh hhx hrest
    have hsearch := search_of_matchHdr _ _ hm
    unfold parse_received_data
    rw [hsearch]
    rfl
  · intro d hd hdd
    have e1 := dropLit_self_append ("00,0004,".data) (d ++ [':'])
    have hX : ∀ x, (([':'] : List Char).head? = some x) → isDigitCh x = false :=
      headFails_cons isDigitCh ':' [] rfl
    have e2 := scanNum_of isDigitCh _ d [':']
      (takeWhile_append_of isDigitCh d [':'] hdd hX)
      (dropWhile_append_of isDigitCh d [':'] hdd hX) hd
    have e3 : dropLit [':'] ([':'] : List Char) = some [] := rfl
    have e4 : scanNum isHexCh ([] : List Char) = none := rfl
    have hm0 : matchHdr ("00,0004,".data ++ (d ++ [':'])) = none := by
      simp only [matchHdr, e1, e2, e3, e4]
    have n1 := matchHdr_none_of ("0,0004,".data ++ (d ++ [':']))
      (ne_append_of_get2 ("0,0004,".data) _ 1 (by decide) (by decide) (by decide))
    have n2 := matchHdr_none_of (",0004,".data ++ (d ++ [':']))
      (ne_append_of_get2 (",0004,".data) _ 0 (by decide) (by decide) (by decide))
    have n3 := matchHdr_none_of ("0004,".data ++ (d ++ [':']))
      (ne_append_of_get2 ("0004,".data) _ 2 (by decide) (by decide) (by decide))
    have n4 := matchHdr_none_of ("004,".data ++ (d ++ [':']))
      (ne_append_of_get2 ("004,".data) _ 2 (by decide) (by decide) (by decide))
    have n5 := matchHdr_none_of ("04,".data ++ (d ++ [':']))
      (ne_append_of_get2 ("04,".data) _ 1 (by decide) (by decide) (by decide))
    have n6 := matchHdr_none_of ("4,".data ++ (d ++ [':']))
      (ne_append_of_get2 ("4,".data) _ 0 (by decide) (by decide) (by decide))
    have n7 := matchHdr_none_of (",".data ++ (d ++ [':']))
      (ne_append_of_get2 (",".data) _ 0 (by decide) (by decide) (by decide))
    have hchain : search ("00,0004,".data ++ (d ++ [':'])) = none := by
      calc search ("00,0004,".data ++ (d ++ [':']))
          = search ("0,0004,".data ++ (d ++ [':'])) := search_cons_none '0' _ hm0
        _ = search (",0004,".data ++ (d ++ [':'])) := search_cons_none '0' _ n1
        _ = search ("0004,".data ++ (d ++ [':'])) := search_cons_none ',' _ n2
        _ = search ("004,".data ++ (d ++ [':'])) := search_cons_none '0' _ n3
        _ = search ("04,".data ++ (d ++ [':'])) := search_cons_none '0' _ n4
        _ = search ("4,".data ++ (d ++ [':'])) := search_cons_none '0' _ n5
        _ = search (",".data ++ (d ++ [':'])) := search_cons_none '4' _ n6
        _ = search (d ++ [':']) := search_cons_none ',' _ n7
        _ = none := search_digits_colon d hdd
    unfold parse_received_data
    rw [hchain]
    rfl
  · intro line h
    unfold parse_received_data
    rw [h]
    rfl

/-- Witness for the amended C4: a concrete frame with a 4-byte payload
decodes to one triple with the fourth byte dropped, and the same frame
with an empty payload is a no-match. -/
theorem hex_frame_decode_example :
    parse_received_data ("00,0004,7:0A141E28".data) = some [(10, 20, 30)]
    ∧ parse_received_data ("00,0004,7:".data) = none := by
  constructor
  · have h := hex_frame_decode_characterization.1 ['7'] ("0A141E28".data) []
      (by decide) (by decide) (by decide) (by decide) (by decide)
    have e : "00,0004,7:0A141E28".data
        = "00,0004,".data ++ (['7'] ++ ([':'] ++ ("0A141E28".data ++ ([] : List Char)))) := by
      decide
    rw [e, h]
    decide
  · have h := hex_frame_decode_characterization.2.1 ['7'] (by decide) (by decide)
    have e : "00,0004,7:".data = "00,0004,".data ++ (['7'] ++ [':']) := by decide
    rw [e, h]

/-- Closed form of the two registry cells after any prefix of the writer's
atomic operations: the value cell holds the value of publish (m-1)/2 once
at least one write happened, the timestamp cell the timestamp of publish
m/2 - 1 once at least two writes happened. -/
lemma reg5_take : ∀ (pubs : List ((Nat × ℚ) × Nat)) (s : Reg5) (m : Nat),
    m ≤ 2 * pubs.length →
    List.foldl applyW s ((pubOps pubs).take m)
      = ⟨if m = 0 then s.val else (pubs[(m - 1) / 2]?).map Prod.fst,
         if m ≤ 1 then s.ts else (pubs[m / 2 - 1]?).map Prod.snd⟩ := by
  intro pubs
  induction pubs with
  | nil =>
    intro s m hm
    have hm0 : m = 0 := by simpa using hm
    subst hm0
    rfl
  | cons p rest ih =>
    intro s m hm
    match m with
    | 0 => rfl
    | 1 =>
      rw [show (pubOps (p :: rest)).take 1 = [WOp.wval p.1] from rfl]
      rw [show List.foldl applyW s [WOp.wval p.1] = (⟨some p.1, s.ts⟩ : Reg5) from rfl]
      simp
    | (n + 2) =>
      have hm' : n ≤ 2 * rest.length := by
        simp only [List.length_cons] at hm
        omega
      rw [show (pubOps (p :: rest)).take (n + 2)
          = WOp.wval p.1 :: WOp.wts p.2 :: (pubOps rest).take n from rfl]
      rw [List.foldl_cons, List.foldl_cons]
      rw [show applyW (applyW s (WOp.wval p.1)) (WOp.wts p.2)
          = (⟨some p.1, some p.2⟩ : Reg5) from rfl]
      rw [ih ⟨some p.1, some p.2⟩ n hm']
      have hval : (if n = 0 then some p.1 else (rest[(n - 1) / 2]?).map Prod.fst)
          = ((p :: rest)[(n + 2 - 1) / 2]?).map Prod.fst := by
        by_cases h0 : n = 0
        · subst h0
          simp
        · rw [if_neg h0]
          have : (n + 2 - 1) / 2 = (n - 1) / 2 + 1 := by omega
          rw [this, List.getElem?_cons_succ]
      have hts : (if n ≤ 1 then some p.2 else (rest[n / 2 - 1]?).map Prod.snd)
          = ((p :: rest)[(n + 2) / 2 - 1]?).map Prod.snd := by
        by_cases h1 : n ≤ 1
        · rw [if_pos h1]
          have : (n + 2) / 2 - 1 = 0 := by omega
          rw [this, List.getElem?_cons_zero]
          rfl
        · rw [if_neg h1]
          have : (n + 2) / 2 - 1 = (n / 2 - 1) + 1 := by omega
          rw [this, List.getElem?_cons_succ]
      rw [hval, hts]
      have hne : ¬ (n + 2 = 0) := by omega
      have hle : ¬ (n + 2 ≤ 1) := by omega
      rw [if_neg hne, if_neg hle]

/-- C5 amended: each channel's (raw count, voltage) value tuple is one
dictionary entry, written atomically, so a snapshot never observes a
mixture of two publishes inside the value tuple; but the last-update
timestamp lives in a second dictionary written after the value, and the
sampler reads the timestamp (staleness check, line 166) before the value
(row building, line 175), so the snapshot can pair a value with an OLDER
publish's timestamp: the observed value always comes from a publish at
least as recent as the observed timestamp, and both are always complete
published entries or absent. -/
theorem registry_interleaving_guarantee (pubs : List ((Nat × ℚ) × Nat)) (i j : Nat)
    (hij : i ≤ j) (hj : j ≤ 2 * pubs.length) :
    ((observe pubs i j).1 = none
      ∨ ∃ k, k < pubs.length ∧ (observe pubs i j).1 = (pubs[k]?).map Prod.fst)
    ∧ ((observe pubs i j).2 = none
      ∨ ∃ kt kv, kt ≤ kv ∧ kv < pubs.length
          ∧ (observe pubs i j).2 = (pubs[kt]?).map Prod.snd
          ∧ (observe pubs i j).1 = (pubs[kv]?).map Prod.fst) := by
  have hi : i ≤ 2 * pubs.length := le_trans hij hj
  have hv := reg5_take pubs ⟨none, none⟩ j hj
  have ht := reg5_take pubs ⟨none, none⟩ i hi
  have hobs1 : (observe pubs i j).1
      = (if j = 0 then none else (pubs[(j - 1) / 2]?).map Prod.fst) := by
    unfold observe reg5
    rw [hv]
  have hobs2 : (observe pubs i j).2
      = (if i ≤ 1 then none else (pubs[i / 2 - 1]?).map Prod.snd) := by
    unfold observe reg5
    rw [ht]
  constructor
  · by_cases h0 : j = 0
    · left
      rw [hobs1, if_pos h0]
    · right
      refine ⟨(j - 1) / 2, by omega, ?_⟩
      rw [hobs1, if_neg h0]
  · by_cases h1 : i ≤ 1
    · left
      rw [hobs2, if_pos h1]
    · right
      refine ⟨i / 2 - 1, (j - 1) / 2, by omega, by omega, ?_, ?_⟩
      · rw [hobs2, if_neg h1]
      · rw [hobs1, if_neg (by omega : ¬ j = 0)]

/-- Witness for the amended C5: one complete publish, timestamp read and
value read both after it. -/
theorem registry_interleaving_example :
    ((observe [((5, 1), 100)] 2 2).1 = none
      ∨ ∃ k, k < 1 ∧ (observe [((5, 1), 100)] 2 2).1
          = (([((5, 1), 100)] : List ((Nat × ℚ) × Nat))[k]?).map Prod.fst)
    ∧ ((observe [((5, 1), 100)] 2 2).2 = none
      ∨ ∃ kt kv, kt ≤ kv ∧ kv < 1
          ∧ (observe [((5, 1), 100)] 2 2).2
              = (([((5, 1), 100)] : List ((Nat × ℚ) × Nat))[kt]?).map Prod.snd
          ∧ (observe [((5, 1), 100)] 2 2).1
              = (([((5, 1), 100)] : List ((Nat × ℚ) × Nat))[kv]?).map Prod.fst) :=
  registry_interleaving_guarantee [((5, 1), 100)] 2 2 (by omega) (by simp)

/-- Appending one event to the reference last-published-value map. -/
lemma lastPub_snoc (pre : List SEv) (e : SEv) (c : Nat) :
    lastPub (pre ++ [e]) c
      = match e with
        | .pub c' v _ => if c = c' then some v else lastPub pre c
        | .tick _ => lastPub pre c := by
  unfold lastPub
  rw [List.foldl_append]
  cases e <;> rfl

/-- The sampler run emits exactly the specified rows, given that its
registry currently agrees with the last published values of the prefix
already consumed. -/
lemma runS_go : ∀ (r pre : List SEv) (s : SampState),
    (∀ c, s.reg c = lastPub pre c) →
    (List.foldl stepS s r).rows.map Prod.snd
      = s.rows.map Prod.snd ++ rowsSpecAux pre r := by
  intro r
  induction r with
  | nil =>
    intro pre s hinv
    simp [rowsSpecAux]
  | cons e r ih =>
    intro pre s hinv
    cases e with
    | pub c v t =>
      rw [List.foldl_cons]
      have hinv' : ∀ c', (stepS s (SEv.pub c v t)).reg c'
          = lastPub (pre ++ [SEv.pub c v t]) c' := by
        intro c'
        rw [lastPub_snoc]
        by_cases hc : c' = c
        · simp [stepS, hc]
        · have hc2 : ¬ c = c' := fun hx => hc hx.symm
          simp [stepS, hc, hc2, hinv c']
      rw [ih (pre ++ [SEv.pub c v t]) _ hinv']
      rfl
    | tick now =>
      rw [List.foldl_cons]
      have hinv' : ∀ c', (stepS s (SEv.tick now)).reg c'
          = lastPub (pre ++ [SEv.tick now]) c' := by
        intro c'
        rw [lastPub_snoc]
        exact hinv c'
      rw [ih (pre ++ [SEv.tick now]) _ hinv']
      have hb : buildRow s.reg = chans.map (lastPub pre) := by
        unfold buildRow
        have : s.reg = lastPub pre := funext hinv
        rw [this]
      show (s.rows ++ [(now / 10, buildRow s.reg)]).map Prod.snd ++ _ = _
      rw [List.map_append, hb]
      show s.rows.map Prod.snd ++ [chans.map (lastPub pre)] ++ _
        = s.rows.map Prod.snd ++ (chans.map (lastPub pre) :: rowsSpecAux (pre ++ [SEv.tick now]) r)
      rw [List.append_assoc]
      rfl

/-- The accumulator never reports a publish for a channel the trace never
published to. -/
lemma lastPub_aux_none : ∀ (tr : List SEv) (c : Nat) (acc : Option (Nat × ℚ)),
    (∀ v t, SEv.pub c v t ∉ tr) →
    tr.foldl (fun acc e =>
      match e with
      | .pub c' v _ => if c = c' then some v else acc
      | .tick _ => acc) acc = acc := by
  intro tr
  induction tr with
  | nil =>
    intro c acc _
    rfl
  | cons e r ih =>
    intro c acc h
    rw [List.foldl_cons]
    cases e with
    | tick now =>
      exact ih c acc fun v t hm => h v t (List.mem_cons_of_mem _ hm)
    | pub c' v t =>
      have hne : ¬ c = c' := by
        intro hc
        exact h v t (by rw [hc]; exact List.mem_cons_self _ _)
      show List.foldl (fun acc e =>
          match e with
          | SEv.pub c' v _ => if c = c' then some v else acc
          | SEv.tick _ => acc) (if c = c' then some v else acc) r = acc
      rw [if_neg hne]
      exact ih c acc fun v' t' hm => h v' t' (List.mem_cons_of_mem _ hm)

/-- C6: every emitted row reports, for each channel, exactly the last
value published to it before that tick, or the explicit absent marker
(`none`, the empty cells) when nothing was published yet - the marker is
a distinct constructor, not a zero or value-like sentinel; staleness at a
tick changes neither the registry nor the row built from it (it only
raises the separate warning), so a stale value persists in every later
row until superseded by a newer publish. -/
theorem rows_report_latest_or_absent :
    (∀ tr : List SEv, (runS tr).rows.map Prod.snd = rowsSpec tr)
    ∧ (∀ (s : SampState) (now : Nat),
        (stepS s (.tick now)).reg = s.reg
        ∧ (stepS s (.tick now)).rows = s.rows ++ [(now / 10, buildRow s.reg)])
    ∧ (∀ (tr : List SEv) (c : Nat),
        (∀ v t, SEv.pub c v t ∉ tr) → lastPub tr c = none) := by
  refine ⟨?_, ?_, ?_⟩
  · intro tr
    have h := runS_go tr [] initS fun c => rfl
    simpa [runS, rowsSpec, initS] using h
  · intro s now
    exact ⟨rfl, rfl⟩
  · intro tr c h
    exact lastPub_aux_none tr c none h

/-- Witness for C6: one publish then one tick, plus a never-published
channel reporting absent. -/
theorem rows_report_latest_or_absent_example :
    (runS [SEv.pub 1 (5, 1) 0, SEv.tick 10]).rows.map Prod.snd
      = rowsSpec [SEv.pub 1 (5, 1) 0, SEv.tick 10]
    ∧ lastPub [SEv.tick 10] 2 = none :=
  ⟨rows_report_latest_or_absent.1 [SEv.pub 1 (5, 1) 0, SEv.tick 10],
   rows_report_latest_or_absent.2.2 [SEv.tick 10] 2
     (by intro v t hm; rw [List.mem_singleton] at hm; exact SEv.noConfusion hm)⟩

/-- The emitted row timestamps are the tick instants truncated to whole
seconds, in order. -/
lemma runS_rows_fst : ∀ (tr : List SEv) (s : SampState),
    (List.foldl stepS s tr).rows.map Prod.fst
      = s.rows.map Prod.fst ++ (ticksOf tr).map (fun n => n / 10) := by
  intro tr
  induction tr with
  | nil =>
    intro s
    simp [ticksOf]
  | cons e r ih =>
    intro s
    rw [List.foldl_cons]
    cases e with
    | pub c v t =>
      rw [ih (stepS s (SEv.pub c v t))]
      rfl
    | tick now =>
      rw [ih (stepS s (SEv.tick now))]
      show (s.rows ++ [(now / 10, buildRow s.reg)]).map Prod.fst ++ _ = _
      rw [List.map_append, List.append_assoc]
      rfl

/-- One tick instant per tick event. -/
lemma ticksOf_length : ∀ tr : List SEv, (ticksOf tr).length = tr.countP isTick := by
  intro tr
  induction tr with
  | nil => rfl
  | cons e r ih =>
    cases e with
    | pub c v t =>
      show (ticksOf r).length = List.countP isTick (SEv.pub c v t :: r)
      rw [List.countP_cons]
      simp [isTick, ih]
    | tick now =>
      show (ticksOf r).length + 1 = List.countP isTick (SEv.tick now :: r)
      rw [List.countP_cons]
      simp [isTick, ih]

/-- The row list only ever grows by appending. -/
lemma rows_extend : ∀ (ext : List SEv) (s : SampState),
    ∃ l2, (List.foldl stepS s ext).rows = s.rows ++ l2 := by
  intro ext
  induction ext with
  | nil =>
    intro s
    exact ⟨[], by simp⟩
  | cons e r ih =>
    intro s
    rw [List.foldl_cons]
    obtain ⟨l2, hl2⟩ := ih (stepS s e)
    cases e with
    | pub c v t => exact ⟨l2, hl2⟩
    | tick now =>
      refine ⟨(now / 10, buildRow s.reg) :: l2, ?_⟩
      rw [hl2]
      show s.rows ++ [(now / 10, buildRow s.reg)] ++ l2 = _
      rw [List.append_assoc]
      rfl

/-- C7 amended: the sampler emits exactly one row per tick and never
mutates an emitted row (the row list of a longer run extends that of any
shorter run by appending); the recorded row timestamps are the tick
instants truncated to whole seconds, hence NON-decreasing whenever the
tick instants are non-decreasing - strict increase fails, since the
1-second timestamp resolution is coarser than the 0.1 s sampling period
and consecutive rows can share a timestamp. -/
theorem rows_per_tick_monotone_append (tr ext : List SEv)
    (hmono : List.Chain' (· ≤ ·) (ticksOf tr)) :
    List.Chain' (· ≤ ·) ((runS tr).rows.map Prod.fst)
    ∧ (runS tr).rows.length = tr.countP isTick
    ∧ ∃ l2, (runS (tr ++ ext)).rows = (runS tr).rows ++ l2 := by
  have hfst : (runS tr).rows.map Prod.fst = (ticksOf tr).map (fun n => n / 10) := by
    have h := runS_rows_fst tr initS
    simpa [runS, initS] using h
  refine ⟨?_, ?_, ?_⟩
  · rw [hfst, List.chain'_map]
    exact hmono.imp fun a b hab => Nat.div_le_div_right hab
  · have h : ((runS tr).rows.map Prod.fst).length
        = ((ticksOf tr).map (fun n => n / 10)).length := by rw [hfst]
    simpa [ticksOf_length tr] using h
  · have h : runS (tr ++ ext) = List.foldl stepS (runS tr) ext := by
      unfold runS
      rw [List.foldl_append]
    rw [h]
    exact rows_extend ext (runS tr)

/-- Witness for the amended C7: two ticks 1.5 s apart, then one more. -/
theorem rows_per_tick_example :
    List.Chain' (· ≤ ·) ((runS [SEv.tick 10, SEv.tick 25]).rows.map Prod.fst)
    ∧ (runS [SEv.tick 10, SEv.tick 25]).rows.length
        = List.countP isTick [SEv.tick 10, SEv.tick 25]
    ∧ ∃ l2, (runS ([SEv.tick 10, SEv.tick 25] ++ [SEv.tick 30])).rows
        = (runS [SEv.tick 10, SEv.tick 25]).rows ++ l2 :=
  rows_per_tick_monotone_append [SEv.tick 10, SEv.tick 25] [SEv.tick 30]
    (by rw [show ticksOf [SEv.tick 10, SEv.tick 25] = [10, 25] from rfl]
        simp [List.chain'_cons])

/-- C7 counterexample: two ticks 0.1 s apart (instants 1.0 s and 1.1 s in
tenths) produce two rows whose recorded timestamps are both second 1,
because the row timestamp is written with `strftime` at whole-second
resolution while the sampling period is 0.1 s; the emitted timestamps are
therefore not strictly increasing. -/
theorem row_timestamps_not_strict_cex :
    (10 < 11)
    ∧ (runS [SEv.tick 10, SEv.tick 11]).rows.map Prod.fst = [1, 1]
    ∧ ¬ List.Chain' (· < ·) ((runS [SEv.tick 10, SEv.tick 11]).rows.map Prod.fst) := by
  refine ⟨by decide, by decide, ?_⟩
  have h : (runS [SEv.tick 10, SEv.tick 11]).rows.map Prod.fst = [1, 1] := by decide
  rw [h]
  simp [List.chain'_cons]

end AnimalMiru
